import Mathlib

/-!
Shallow embedding of the numerical content of the `TipsAndTricks` notebook
(N-body acceleration accumulation, SPH cubic-spline kernel with boolean masks,
and the three pairwise dot-product formulations), over exact rationals.

Conventions of the embedding:
* A 3-vector is a function `Fin 3 → ℚ`; an `(N, 3)` array is `Fin n → Vec3`;
  an `(N, N)` array is `Fin n → Fin n → ℚ`; an `(N, N, 3)` array is
  `Fin n → Fin n → Vec3`.
* `np.linalg.norm(dxij, axis=2)` produces a matrix `r` of Euclidean norms.
  The square root is not rational, so `r` is carried as data and characterised
  by `IsNormMatrix`: entrywise nonnegative with `r i j ^ 2` equal to the
  squared norm of `dxij i j`.  Concrete witnesses use configurations whose
  pairwise distances are rational.
* A NaN-valued array entry (the result of `0/0` in the acceleration matrix)
  is modelled as `none : Option Vec3`; `np.nansum` maps `none` to zero before
  summing.
-/

namespace TipsAndTricks

/-- A 3-component vector of rationals (one cell of an `(..., 3)` numpy array). -/
abbrev Vec3 := Fin 3 → ℚ

/-- Code line `dxij = pos[:, np.newaxis] - pos[np.newaxis]`:
the pairwise separation tensor of an `(N, 3)` array `p`. -/
def dxij (p : Fin n → Vec3) (i j : Fin n) : Vec3 :=
  fun k => p i k - p j k

/-- Dot product of two 3-vectors (sum over the component axis). -/
def dot (v w : Vec3) : ℚ := ∑ k, v k * w k

/-- Statement that `r` is the matrix `np.linalg.norm(dxij, axis=2)` for positions `p`:
each entry is nonnegative and squares to the squared norm of the separation. -/
def IsNormMatrix (p : Fin n → Vec3) (r : Fin n → Fin n → ℚ) : Prop :=
  ∀ i j, 0 ≤ r i j ∧ r i j ^ 2 = dot (dxij p i j) (dxij p i j)

/-- The zero 3-vector. -/
def vzero : Vec3 := fun _ => 0

/-! ### P1: state vector slices, acceleration matrix, nansum

The notebook builds `S = np.hstack((pos, vel))` of shape `(N, 6)` (columns
`x, y, z, vx, vy, vz`), then computes
`pos = S[:, 3:]` (the code takes columns 3..5),
`dxij = pos[:, np.newaxis] - pos[np.newaxis]`,
`acc_matrix = G * mass * dxij / np.linalg.norm(dxij, axis=2)[..., np.newaxis]`,
`dS[:, 3:] = -np.nansum(acc_matrix, axis=1)`. -/

/-- The slice the code assigns to `pos`: `S[:, 3:]` (columns 3, 4, 5). -/
def posCode (S : Fin n → Fin 6 → ℚ) : Fin n → Vec3 :=
  fun i k => S i ⟨k.val + 3, by omega⟩

/-- The first three columns of the state vector `S[:, :3]` (the columns the
notebook fills with positions when building `S = np.hstack((pos, vel))`). -/
def posSlice (S : Fin n → Fin 6 → ℚ) : Fin n → Vec3 :=
  fun i k => S i ⟨k.val, by omega⟩

/-- One entry of `G * mass * dxij / np.linalg.norm(dxij, axis=2)[..., np.newaxis]`:
`m` is the mass broadcast into column `j`, `dx` the separation vector,
`r` its Euclidean norm.  When `r = 0` the numpy division `0/0` yields NaN in
every component, modelled as `none`. -/
def accEntry (G m : ℚ) (dx : Vec3) (r : ℚ) : Option Vec3 :=
  if r = 0 then none else some (fun k => G * m * dx k / r)

/-- The full `acc_matrix` of the notebook, on a points array `q` whose norm
matrix is `r`. -/
def acc_matrix (G : ℚ) (mass : Fin n → ℚ) (q : Fin n → Vec3)
    (r : Fin n → Fin n → ℚ) (i j : Fin n) : Option Vec3 :=
  accEntry G (mass j) (dxij q i j) (r i j)

/-- Row reduction `np.nansum(row)`: NaN entries are treated as zero. -/
def nansumRow (row : Fin n → Option Vec3) : Vec3 :=
  fun k => ∑ j, (row j).getD vzero k

/-- Code line `dS[:, 3:] = -np.nansum(acc_matrix, axis=1)`:
the points array fed into `dxij` is `posCode S = S[:, 3:]`. -/
def dSvel (G : ℚ) (mass : Fin n → ℚ) (S : Fin n → Fin 6 → ℚ)
    (r : Fin n → Fin n → ℚ) (i : Fin n) : Vec3 :=
  fun k => -(nansumRow (acc_matrix G mass (posCode S) r i) k)

/-- Modelled from the spec: the inverse-square force accumulation
`result[i] = -sum over j ≠ i of G * mass[j] * (position[i] - position[j]) /
||position[i] - position[j]||^3`, where `position` is the position slice of
the particle set and `r` its norm matrix. -/
def accSpecResult (G : ℚ) (mass : Fin n → ℚ) (p : Fin n → Vec3)
    (r : Fin n → Fin n → ℚ) (i : Fin n) : Vec3 :=
  fun k => -(∑ j ∈ Finset.univ.erase i, G * mass j * (p i k - p j k) / r i j ^ 3)

/-! ### P2/P3: normalized distances, kernel masks, `W`, `dW`, neighbor counts -/

/-- Code line `R = np.linalg.norm(dxij, axis=2) / h`. -/
def Rmat (r : Fin n → Fin n → ℚ) (h : ℚ) (i j : Fin n) : ℚ := r i j / h

/-- Scalar form of the mask `I1 = (R >= 0) & (R < 1)`. -/
def I1p (R : ℚ) : Bool := decide (0 ≤ R) && decide (R < 1)

/-- Scalar form of the mask `I2 = (R >= 1) & (R < 2)`. -/
def I2p (R : ℚ) : Bool := decide (1 ≤ R) && decide (R < 2)

/-- The boolean mask matrix `I1 = (R >= 0) & (R < 1)`. -/
def I1 (R : Fin n → Fin n → ℚ) (i j : Fin n) : Bool := I1p (R i j)

/-- The boolean mask matrix `I2 = (R >= 1) & (R < 2)`. -/
def I2 (R : Fin n → Fin n → ℚ) (i j : Fin n) : Bool := I2p (R i j)

/-- The expression assigned by `W[I1] = alpha * (2 / 3 - R[I1] ** 2 + 1 / 2 * R[I1] ** 3)`. -/
def Wbranch1 (alpha R : ℚ) : ℚ := alpha * (2 / 3 - R ^ 2 + 1 / 2 * R ^ 3)

/-- The expression assigned by `W[I2] = alpha * (1 / 6 * (2 - R[I2]) ** 3)`. -/
def Wbranch2 (alpha R : ℚ) : ℚ := alpha * (1 / 6 * (2 - R) ^ 3)

/-- One entry of `W`: initialised to zero, then the entries selected by the
masks are overwritten (the masks are disjoint, so the two assignments commute). -/
def Wpoint (alpha R : ℚ) : ℚ :=
  if I1p R then Wbranch1 alpha R
  else if I2p R then Wbranch2 alpha R
  else 0

/-- The kernel matrix `W` built from the normalized distance matrix `R`. -/
def W (alpha : ℚ) (R : Fin n → Fin n → ℚ) (i j : Fin n) : ℚ :=
  Wpoint alpha (R i j)

/-- One entry of `dW`: initialised to the zero vector, then the entries
selected by the masks are overwritten with
`alpha * (-2 + 3/2 * R) * dx / h**2` on `I1` and
`alpha * (-1/2 * (2 - R)**2) * dx / (h * r)` on `I2`. -/
def dWpoint (alpha h R r : ℚ) (dx : Vec3) : Vec3 :=
  if I1p R then fun k => alpha * (-2 + 3 / 2 * R) * dx k / h ^ 2
  else if I2p R then fun k => alpha * (-1 / 2 * (2 - R) ^ 2) * dx k / (h * r)
  else vzero

/-- The kernel-gradient tensor `dW`. -/
def dW (alpha h : ℚ) (R rij : Fin n → Fin n → ℚ) (dx : Fin n → Fin n → Vec3)
    (i j : Fin n) : Vec3 :=
  dWpoint alpha h (R i j) (rij i j) (dx i j)

/-- The exposed neighbor-count query `I1.sum(axis=0)`: for particle `i`,
the number of indices `j` with `I1[j, i]` true. -/
def neighborCountCode (R : Fin n → Fin n → ℚ) (i : Fin n) : ℕ :=
  ∑ j, (if I1 R j i then 1 else 0)

/-- The count described by the claim: particles `j ≠ i` with `0 ≤ R[i,j] < 2`. -/
def claimNeighborCount (R : Fin n → Fin n → ℚ) (i : Fin n) : ℕ :=
  (Finset.univ.filter (fun j => j ≠ i ∧ 0 ≤ R i j ∧ R i j < 2)).card

/-! ### P3: the three dot-product formulations -/

/-- Code line `dxdvij_A = np.sum(dxij * dvij, axis=2)`: elementwise multiply, then
reduce over the component axis. -/
def dxdvij_A (dx dv : Fin n → Fin n → Vec3) (i j : Fin n) : ℚ :=
  ∑ k, dx i j k * dv i j k

/-- The contraction loop of `np.einsum("ijk,ijk->ij", dxij, dvij)`: a running
accumulation over the shared index `k`. -/
def dxdvij_B (dx dv : Fin n → Fin n → Vec3) (i j : Fin n) : ℚ :=
  (List.finRange 3).foldl (fun acc k => acc + dx i j k * dv i j k) 0

/-- View `dxij[..., None, :]`: the separation vector viewed as a `1 × 3` matrix. -/
def rowMat (v : Vec3) : Matrix (Fin 1) (Fin 3) ℚ := fun _ k => v k

/-- View `dvij[..., :, None]`: the relative-velocity vector viewed as a `3 × 1` matrix. -/
def colMat (v : Vec3) : Matrix (Fin 3) (Fin 1) ℚ := fun k _ => v k

/-- Code line `dxdvij_C = np.squeeze(dxij[..., None, :] @ dvij[..., :, None])`: batched
matrix product of the `1 × 3` and `3 × 1` views, then squeeze of the two
singleton axes. -/
def dxdvij_C (dx dv : Fin n → Fin n → Vec3) (i j : Fin n) : ℚ :=
  (rowMat (dx i j) * colMat (dv i j)) 0 0

theorem dxij_apply (p : Fin n → Vec3) (i j : Fin n) (k : Fin 3) :
    dxij p i j k = p i k - p j k := rfl

theorem dxij_self (p : Fin n → Vec3) (i : Fin n) : dxij p i i = vzero := by
  funext k
  simp [dxij, vzero]

theorem normMatrix_diag_eq_zero {p : Fin n → Vec3} {r : Fin n → Fin n → ℚ}
    (h : IsNormMatrix p r) (i : Fin n) : r i i = 0 := by
  have h2 := (h i i).2
  rw [dxij_self] at h2
  have hz : dot vzero vzero = 0 := by simp [dot, vzero]
  rw [hz] at h2
  have := (h i i).1
  nlinarith [h2, this]

theorem normMatrix_eq_zero_of_coincident {p : Fin n → Vec3}
    {r : Fin n → Fin n → ℚ} (h : IsNormMatrix p r) {i j : Fin n}
    (hp : p i = p j) : r i j = 0 := by
  have h2 := (h i j).2
  have hdx : dxij p i j = vzero := by
    funext k
    simp [dxij, vzero, hp]
  rw [hdx] at h2
  have hz : dot vzero vzero = 0 := by simp [dot, vzero]
  rw [hz] at h2
  nlinarith [h2, (h i j).1]

theorem I1p_iff (R : ℚ) : I1p R = true ↔ 0 ≤ R ∧ R < 1 := by
  simp [I1p]

theorem I2p_iff (R : ℚ) : I2p R = true ↔ 1 ≤ R ∧ R < 2 := by
  simp [I2p]

/-- C7: the kernel is continuous at its branch boundaries: the first branch
evaluated at `R = 1` and the second branch evaluated at `R = 1` both equal
`alpha / 6` exactly (hence agree within any tolerance), and the second branch
evaluated at `R = 2` equals the third branch's value `0`. -/
theorem C7_kernel_continuity (alpha : ℚ) :
    Wbranch1 alpha 1 = alpha * (1 / 6) ∧ Wbranch2 alpha 1 = alpha * (1 / 6) ∧
      Wbranch2 alpha 2 = 0 := by
  refine ⟨?_, ?_, ?_⟩ <;> simp only [Wbranch1, Wbranch2] <;> ring

/-- C8: the pairwise separation tensor is zero on the diagonal, antisymmetric,
and for `i ≠ j` its entry is exactly `position[i] - position[j]`. -/
theorem C8_separation_tensor (p : Fin n → Vec3) (i j : Fin n) :
    dxij p i i = vzero ∧ dxij p i j = -dxij p j i ∧
      (i ≠ j → dxij p i j = fun k => p i k - p j k) := by
  refine ⟨dxij_self p i, ?_, fun _ => rfl⟩
  funext k
  simp [dxij]

/-- Witness for C8 at a concrete two-particle set. -/
theorem C8_separation_tensor_witness :
    (0 : Fin 2) ≠ 1 ∧
      dxij ![![1, 2, 3], ![4, 5, 6]] 0 1 =
        fun k => (![![1, 2, 3], ![4, 5, 6]] : Fin 2 → Vec3) 0 k -
          (![![1, 2, 3], ![4, 5, 6]] : Fin 2 → Vec3) 1 k :=
  ⟨by decide, (C8_separation_tensor ![![1, 2, 3], ![4, 5, 6]] 0 1).2.2 (by decide)⟩

/-- C3: for every pair of `(N, N, 3)` arrays `dx` and `dv`, the three
dot-product formulations — elementwise multiply then sum over the last axis,
the einsum contraction, and the batched matrix product with squeeze — produce
the same `N × N` result entrywise, exactly, for every `(i, j)`. -/
theorem C3_dot_product_equivalence (dx dv : Fin n → Fin n → Vec3) (i j : Fin n) :
    dxdvij_A dx dv i j = dxdvij_B dx dv i j ∧
      dxdvij_B dx dv i j = dxdvij_C dx dv i j := by
  have hB : dxdvij_B dx dv i j =
      0 + dx i j 0 * dv i j 0 + dx i j 1 * dv i j 1 + dx i j 2 * dv i j 2 := rfl
  have hA : dxdvij_A dx dv i j =
      dx i j 0 * dv i j 0 + dx i j 1 * dv i j 1 + dx i j 2 * dv i j 2 := by
    simp [dxdvij_A, Fin.sum_univ_three]
  have hC : dxdvij_C dx dv i j = ∑ k, dx i j k * dv i j k := by
    simp [dxdvij_C, Matrix.mul_apply, rowMat, colMat]
  constructor
  · rw [hA, hB]
    ring
  · rw [hB, hC, Fin.sum_univ_three]
    ring

/-- C4: with `R = r / h` for a norm `r ≥ 0` and `h > 0`, the kernel evaluator
assigns the first-branch value exactly when `0 ≤ R < 1`, the second-branch
value exactly when `1 ≤ R < 2`, and `0` exactly when `R ≥ 2`; the branch
conditions are mutually exclusive and exhaustive over `[0, ∞)`, and the
boundaries follow the half-open convention: `R = 1` falls in the `[1, 2)`
branch and `R = 2` falls in the zero branch. -/
theorem C4_kernel_branch_structure (alpha h r : ℚ) (hh : 0 < h) (hr : 0 ≤ r) :
    (r / h < 1 → Wpoint alpha (r / h) = Wbranch1 alpha (r / h)) ∧
      (1 ≤ r / h → r / h < 2 → Wpoint alpha (r / h) = Wbranch2 alpha (r / h)) ∧
      (2 ≤ r / h → Wpoint alpha (r / h) = 0) ∧
      (I1p (r / h) = true ∨ I2p (r / h) = true ∨ 2 ≤ r / h) ∧
      ¬(I1p (r / h) = true ∧ I2p (r / h) = true) ∧
      (I1p (r / h) = true → ¬2 ≤ r / h) ∧
      (I2p (r / h) = true → ¬2 ≤ r / h) ∧
      (r / h = 1 → Wpoint alpha (r / h) = Wbranch2 alpha 1) ∧
      (r / h = 2 → Wpoint alpha (r / h) = 0) := by
  have hR : 0 ≤ r / h := div_nonneg hr hh.le
  refine ⟨?_, ?_, ?_, ?_, ?_, ?_, ?_, ?_, ?_⟩
  · intro h1
    have hI1 : I1p (r / h) = true := (I1p_iff _).mpr ⟨hR, h1⟩
    simp [Wpoint, hI1]
  · intro h1 h2
    have hI1 : I1p (r / h) = false := by
      rw [Bool.eq_false_iff, ne_eq, I1p_iff]
      rintro ⟨-, hlt⟩
      linarith
    have hI2 : I2p (r / h) = true := (I2p_iff _).mpr ⟨h1, h2⟩
    simp [Wpoint, hI1, hI2]
  · intro h2
    have hI1 : I1p (r / h) = false := by
      rw [Bool.eq_false_iff, ne_eq, I1p_iff]
      rintro ⟨-, hlt⟩
      linarith
    have hI2 : I2p (r / h) = false := by
      rw [Bool.eq_false_iff, ne_eq, I2p_iff]
      rintro ⟨-, hlt⟩
      linarith
    simp [Wpoint, hI1, hI2]
  · rcases lt_or_le (r / h) 1 with h1 | h1
    · exact Or.inl ((I1p_iff _).mpr ⟨hR, h1⟩)
    · rcases lt_or_le (r / h) 2 with h2 | h2
      · exact Or.inr (Or.inl ((I2p_iff _).mpr ⟨h1, h2⟩))
      · exact Or.inr (Or.inr h2)
  · rintro ⟨hI1, hI2⟩
    rw [I1p_iff] at hI1
    rw [I2p_iff] at hI2
    linarith [hI1.2, hI2.1]
  · intro hI1
    rw [I1p_iff] at hI1
    linarith [hI1.2]
  · intro hI2
    rw [I2p_iff] at hI2
    linarith [hI2.2]
  · intro he
    rw [he]
    norm_num [Wpoint, I1p, I2p]
  · intro he
    rw [he]
    norm_num [Wpoint, I1p, I2p]

/-- Witness for C4 at `alpha = 1`, `h = 1`, `r = 3/2` (so `R = 3/2`, the
second branch). -/
theorem C4_kernel_branch_structure_witness :
    0 < (1 : ℚ) ∧ 0 ≤ (3 / 2 : ℚ) ∧
      Wpoint 1 ((3 / 2 : ℚ) / 1) = Wbranch2 1 ((3 / 2 : ℚ) / 1) :=
  ⟨by norm_num, by norm_num,
    (C4_kernel_branch_structure 1 1 (3 / 2) (by norm_num) (by norm_num)).2.1
      (by norm_num) (by norm_num)⟩

/-- C5: the kernel-gradient diagonal entry `dW[i,i]` (where the separation is
zero and `R = 0`) is exactly the zero vector, and the diagonal is never
evaluated through the second branch, whose formula divides by `r`: the `I2`
mask is false there. -/
theorem C5_dW_diagonal (p : Fin n → Vec3) (r : Fin n → Fin n → ℚ)
    (hnorm : IsNormMatrix p r) (alpha h : ℚ) (i : Fin n) :
    dW alpha h (Rmat r h) r (dxij p) i i = vzero ∧
      I2 (Rmat r h) i i = false := by
  have hr0 : r i i = 0 := normMatrix_diag_eq_zero hnorm i
  have hR : Rmat r h i i = 0 := by simp [Rmat, hr0]
  constructor
  · funext k
    rw [dW, hR]
    norm_num [dWpoint, I1p, dxij, vzero]
  · rw [I2, hR]
    norm_num [I2p]

/-- Witness for C5 at a concrete two-particle set with rational distances. -/
theorem C5_dW_diagonal_witness :
    IsNormMatrix ![![0, 0, 0], ![1, 0, 0]] ![![0, 1], ![1, 0]] ∧
      dW 1 1 (Rmat ![![0, 1], ![1, 0]] 1) ![![0, 1], ![1, 0]]
        (dxij ![![0, 0, 0], ![1, 0, 0]]) 0 0 = vzero ∧
      I2 (Rmat ![![0, 1], ![1, 0]] 1) 0 0 = false := by
  have hn : IsNormMatrix ![![0, 0, 0], ![(1 : ℚ), 0, 0]] ![![0, 1], ![1, 0]] := by
    intro i j
    fin_cases i <;> fin_cases j <;>
      exact ⟨by norm_num, by norm_num [dot, dxij, Fin.sum_univ_three]⟩
  exact ⟨hn, (C5_dW_diagonal _ _ hn 1 1 0).1, (C5_dW_diagonal _ _ hn 1 1 0).2⟩

/-- C10: the diagonal of the kernel matrix is the full first-branch value:
`W[i,i] = alpha * 2/3` exactly (nonzero whenever `alpha ≠ 0`), because the
self pair has `R = 0`, which satisfies the `I1` mask; consequently a reduction
of `W` over `j` that does not exclude `j = i` includes this self-contribution
as a separate summand. -/
theorem C10_W_diagonal (p : Fin n → Vec3) (r : Fin n → Fin n → ℚ)
    (hnorm : IsNormMatrix p r) (alpha h : ℚ) (_hh : 0 < h) (i : Fin n) :
    W alpha (Rmat r h) i i = alpha * (2 / 3) ∧
      I1 (Rmat r h) i i = true ∧
      (alpha ≠ 0 → W alpha (Rmat r h) i i ≠ 0) ∧
      ∑ j, W alpha (Rmat r h) i j =
        alpha * (2 / 3) + ∑ j ∈ Finset.univ.erase i, W alpha (Rmat r h) i j := by
  have hr0 : r i i = 0 := normMatrix_diag_eq_zero hnorm i
  have hR : Rmat r h i i = 0 := by simp [Rmat, hr0]
  have hW : W alpha (Rmat r h) i i = alpha * (2 / 3) := by
    rw [W, hR]
    norm_num [Wpoint, I1p, Wbranch1]
  refine ⟨hW, ?_, ?_, ?_⟩
  · rw [I1, hR]
    norm_num [I1p]
  · intro ha
    rw [hW]
    intro hcon
    rcases mul_eq_zero.mp hcon with h0 | h0
    · exact ha h0
    · norm_num at h0
  · rw [← hW]
    exact (Finset.add_sum_erase _ _ (Finset.mem_univ i)).symm

/-- Witness for C10 at a concrete two-particle set with rational distances. -/
theorem C10_W_diagonal_witness :
    IsNormMatrix ![![0, 0, 0], ![2, 0, 0]] ![![0, 2], ![2, 0]] ∧ 0 < (1 : ℚ) ∧
      W 1 (Rmat ![![0, 2], ![2, 0]] 1) 0 0 = 1 * (2 / 3) := by
  have hn : IsNormMatrix ![![0, 0, 0], ![(2 : ℚ), 0, 0]] ![![0, 2], ![2, 0]] := by
    intro i j
    fin_cases i <;> fin_cases j <;>
      exact ⟨by norm_num, by norm_num [dot, dxij, Fin.sum_univ_three]⟩
  exact ⟨hn, by norm_num, (C10_W_diagonal _ _ hn 1 1 (by norm_num) 0).1⟩

/-- Counterexample to C2 as stated: two particles at distance `h/2`.  The
exposed query `I1.sum(axis=0)` returns 2 for particle 0 (it counts the self
entry `R = 0` and uses the `[0, 1)` mask), while the claimed count (particles
`j ≠ i` with `0 ≤ R < 2`) is 1. -/
theorem C2_neighbor_count_counterexample :
    IsNormMatrix ![![0, 0, 0], ![1 / 2, 0, 0]] ![![0, 1 / 2], ![1 / 2, 0]] ∧
      neighborCountCode (Rmat ![![0, 1 / 2], ![1 / 2, 0]] 1) 0 = 2 ∧
      claimNeighborCount (Rmat ![![0, 1 / 2], ![1 / 2, 0]] 1) 0 = 1 ∧
      neighborCountCode (Rmat ![![0, 1 / 2], ![1 / 2, 0]] 1) 0 ≠
        claimNeighborCount (Rmat ![![0, 1 / 2], ![1 / 2, 0]] 1) 0 := by
  have hn : IsNormMatrix ![![0, 0, 0], ![(1 : ℚ) / 2, 0, 0]]
      ![![0, 1 / 2], ![1 / 2, 0]] := by
    intro i j
    fin_cases i <;> fin_cases j <;>
      exact ⟨by norm_num, by norm_num [dot, dxij, Fin.sum_univ_three]⟩
  have h1 : neighborCountCode (Rmat ![![0, 1 / 2], ![1 / 2, 0]] 1) 0 = 2 := by
    rw [neighborCountCode, Fin.sum_univ_two]
    norm_num [I1, I1p, Rmat]
  have h2 : claimNeighborCount (Rmat ![![0, 1 / 2], ![1 / 2, 0]] 1) 0 = 1 := by
    rw [claimNeighborCount, Finset.card_filter, Fin.sum_univ_two]
    norm_num [Rmat]
  exact ⟨hn, h1, h2, by rw [h1, h2]; norm_num⟩

/-- C2 amended: the exposed neighbor-count query `I1.sum(axis=0)` returns,
for particle `i`, the count of entries of column `i` whose normalized distance
lies in `[0, 1)` including the self entry: with `h > 0`, a zero diagonal and
nonnegative distances this is `1` (the self entry) plus the number of
particles `j ≠ i` closer than `h` — not the count over `[0, 2)` excluding
self. -/
theorem C2_neighbor_count_amended (r : Fin n → Fin n → ℚ) (h : ℚ) (i : Fin n)
    (hh : 0 < h) (hdiag : r i i = 0) (hpos : ∀ j, 0 ≤ r j i) :
    neighborCountCode (Rmat r h) i =
      1 + (Finset.univ.filter (fun j => j ≠ i ∧ r j i < h)).card := by
  have hcond : ∀ j, (I1p (r j i / h) = true) ↔ r j i < h := by
    intro j
    rw [I1p_iff]
    constructor
    · rintro ⟨-, hlt⟩
      exact (div_lt_one hh).mp hlt
    · intro hlt
      exact ⟨div_nonneg (hpos j) hh.le, (div_lt_one hh).mpr hlt⟩
  have hfi : (if I1p (r i i / h) then (1 : ℕ) else 0) = 1 := by
    rw [hdiag]
    norm_num [I1p]
  have hsplit : neighborCountCode (Rmat r h) i =
      (if I1p (r i i / h) then (1 : ℕ) else 0) +
        ∑ j ∈ Finset.univ.erase i, (if I1p (r j i / h) then (1 : ℕ) else 0) :=
    (Finset.add_sum_erase _ _ (Finset.mem_univ i)).symm
  rw [hsplit, hfi]
  congr 1
  have hcard : ∑ j ∈ Finset.univ.erase i, (if I1p (r j i / h) then (1 : ℕ) else 0) =
      ((Finset.univ.erase i).filter (fun j => I1p (r j i / h) = true)).card := by
    rw [Finset.card_filter]
  rw [hcard]
  congr 1
  ext j
  simp only [Finset.mem_filter, Finset.mem_erase, Finset.mem_univ, true_and,
    and_true, hcond j]

/-- Witness for the amended C2 at the two-particle configuration of the
counterexample. -/
theorem C2_neighbor_count_amended_witness :
    0 < (1 : ℚ) ∧ (![![0, 1 / 2], ![1 / 2, 0]] : Fin 2 → Fin 2 → ℚ) 0 0 = 0 ∧
      neighborCountCode (Rmat ![![0, 1 / 2], ![1 / 2, 0]] 1) 0 =
        1 + (Finset.univ.filter (fun j => j ≠ (0 : Fin 2) ∧
          (![![0, 1 / 2], ![1 / 2, 0]] : Fin 2 → Fin 2 → ℚ) j 0 < 1)).card := by
  refine ⟨by norm_num, by norm_num,
    C2_neighbor_count_amended _ 1 0 (by norm_num) (by norm_num) ?_⟩
  intro j
  fin_cases j <;> norm_num

/-- C9: holding the distance matrix fixed, shrinking the smoothing length
never increases any particle's neighbor count as returned by the exposed
query: for `0 < h' ≤ h` the count at `h'` is at most the count at `h`. -/
theorem C9_neighbor_count_monotone (r : Fin n → Fin n → ℚ) (h h' : ℚ)
    (i : Fin n) (hh' : 0 < h') (hle : h' ≤ h) :
    neighborCountCode (Rmat r h') i ≤ neighborCountCode (Rmat r h) i := by
  have hh : 0 < h := lt_of_lt_of_le hh' hle
  apply Finset.sum_le_sum
  intro j hj
  by_cases hb : I1 (Rmat r h') j i
  · have hI : I1 (Rmat r h) j i = true := by
      rw [I1, Rmat] at hb ⊢
      rw [I1p_iff] at hb ⊢
      obtain ⟨hnn, hlt⟩ := hb
      have hrpos : 0 ≤ r j i := by
        by_contra hneg
        push_neg at hneg
        have : r j i / h' < 0 := div_neg_of_neg_of_pos hneg hh'
        linarith
      have hlt2 : r j i < h' := (div_lt_one hh').mp hlt
      exact ⟨div_nonneg hrpos hh.le, (div_lt_one hh).mpr (lt_of_lt_of_le hlt2 hle)⟩
    simp [hb, hI]
  · simp [hb]

/-- Witness for C9: two particles at distance 1, smoothing lengths 1 and 2. -/
theorem C9_neighbor_count_monotone_witness :
    0 < (1 : ℚ) ∧ (1 : ℚ) ≤ 2 ∧
      neighborCountCode (Rmat ![![0, 1], ![1, 0]] 1) 0 ≤
        neighborCountCode (Rmat ![![0, 1], ![1, 0]] 2) 0 :=
  ⟨by norm_num, by norm_num,
    C9_neighbor_count_monotone ![![0, 1], ![1, 0]] 2 1 0 (by norm_num) (by norm_num)⟩

/-- C1: evaluation of the code's force accumulation at a concrete particle
set (positions `(0,0,0)` and `(2,0,0)`, velocities `(0,0,0)` and `(5,0,0)`,
masses `1` and `2`, `G = 1`).  The code slices `pos = S[:, 3:]` (the velocity
columns) and divides by the norm to the first power, so it returns `(2, 0, 0)`
for particle 0, while the documented formula
`-sum G * m_j * dx / ||dx||^3` over the position columns gives `(1/2, 0, 0)`. -/
theorem C1_force_accumulation_code_eval :
    IsNormMatrix (posCode ![![0, 0, 0, 0, 0, 0], ![2, 0, 0, 5, 0, 0]])
        ![![0, 5], ![5, 0]] ∧
      IsNormMatrix (posSlice ![![0, 0, 0, 0, 0, 0], ![2, 0, 0, 5, 0, 0]])
        ![![0, 2], ![2, 0]] ∧
      dSvel 1 ![1, 2] ![![0, 0, 0, 0, 0, 0], ![2, 0, 0, 5, 0, 0]]
        ![![0, 5], ![5, 0]] 0 = ![2, 0, 0] ∧
      accSpecResult 1 ![1, 2]
        (posSlice ![![0, 0, 0, 0, 0, 0], ![2, 0, 0, 5, 0, 0]])
        ![![0, 2], ![2, 0]] 0 = ![1 / 2, 0, 0] ∧
      dSvel 1 ![1, 2] ![![0, 0, 0, 0, 0, 0], ![2, 0, 0, 5, 0, 0]]
          ![![0, 5], ![5, 0]] 0 ≠
        accSpecResult 1 ![1, 2]
          (posSlice ![![0, 0, 0, 0, 0, 0], ![2, 0, 0, 5, 0, 0]])
          ![![0, 2], ![2, 0]] 0 := by
  have hq : posCode (![![0, 0, 0, 0, 0, 0], ![2, 0, 0, 5, 0, 0]] :
      Fin 2 → Fin 6 → ℚ) = ![![0, 0, 0], ![5, 0, 0]] := by
    funext i k
    fin_cases i <;> fin_cases k <;> rfl
  have hp : posSlice (![![0, 0, 0, 0, 0, 0], ![2, 0, 0, 5, 0, 0]] :
      Fin 2 → Fin 6 → ℚ) = ![![0, 0, 0], ![2, 0, 0]] := by
    funext i k
    fin_cases i <;> fin_cases k <;> rfl
  have hnq : IsNormMatrix (posCode ![![0, 0, 0, 0, 0, 0], ![2, 0, 0, 5, 0, 0]])
      ![![0, 5], ![5, 0]] := by
    rw [hq]
    intro i j
    fin_cases i <;> fin_cases j <;>
      exact ⟨by norm_num, by norm_num [dot, dxij, Fin.sum_univ_three]⟩
  have hnp : IsNormMatrix (posSlice ![![0, 0, 0, 0, 0, 0], ![2, 0, 0, 5, 0, 0]])
      ![![0, 2], ![2, 0]] := by
    rw [hp]
    intro i j
    fin_cases i <;> fin_cases j <;>
      exact ⟨by norm_num, by norm_num [dot, dxij, Fin.sum_univ_three]⟩
  have hcode : dSvel 1 ![1, 2] ![![0, 0, 0, 0, 0, 0], ![2, 0, 0, 5, 0, 0]]
      ![![0, 5], ![5, 0]] 0 = ![2, 0, 0] := by
    funext k
    fin_cases k <;>
      norm_num [dSvel, nansumRow, acc_matrix, accEntry, dxij, hq,
        Fin.sum_univ_two, vzero]
  have herase : (Finset.univ.erase (0 : Fin 2)) = {1} := by decide
  have hspec : accSpecResult 1 ![1, 2]
      (posSlice ![![0, 0, 0, 0, 0, 0], ![2, 0, 0, 5, 0, 0]])
      ![![0, 2], ![2, 0]] 0 = ![1 / 2, 0, 0] := by
    funext k
    fin_cases k <;>
      norm_num [accSpecResult, hp, herase, Finset.sum_singleton]
  refine ⟨hnq, hnp, hcode, hspec, ?_⟩
  rw [hcode, hspec]
  intro heq
  have h0 := congrFun heq 0
  norm_num at h0

/-- Counterexample to C6 as stated: three particles with particles 0 and 1
(distinct indices, masses 5 and 7) at the same point.  The entry
`acc_matrix[0,1]` is NaN (`0/0`) and `np.nansum` silently discards it: the
row sum for particle 0 equals the value obtained with particle 1's mass
zeroed, so the degenerate pair is masked to exactly zero contribution and no
error is raised (the evaluator is total). -/
theorem C6_nansum_masks_coincident_pair :
    (![![0, 0, 0], ![0, 0, 0], ![1, 0, 0]] : Fin 3 → Vec3) 0 =
        (![![0, 0, 0], ![0, 0, 0], ![1, 0, 0]] : Fin 3 → Vec3) 1 ∧
      (0 : Fin 3) ≠ 1 ∧
      IsNormMatrix ![![0, 0, 0], ![0, 0, 0], ![1, 0, 0]]
        ![![0, 0, 1], ![0, 0, 1], ![1, 1, 0]] ∧
      acc_matrix 1 ![5, 7, 2] ![![0, 0, 0], ![0, 0, 0], ![1, 0, 0]]
        ![![0, 0, 1], ![0, 0, 1], ![1, 1, 0]] 0 1 = none ∧
      nansumRow (acc_matrix 1 ![5, 7, 2] ![![0, 0, 0], ![0, 0, 0], ![1, 0, 0]]
        ![![0, 0, 1], ![0, 0, 1], ![1, 1, 0]] 0) = ![-2, 0, 0] ∧
      nansumRow (acc_matrix 1 ![5, 0, 2] ![![0, 0, 0], ![0, 0, 0], ![1, 0, 0]]
        ![![0, 0, 1], ![0, 0, 1], ![1, 1, 0]] 0) = ![-2, 0, 0] := by
  have hn : IsNormMatrix ![![0, 0, 0], ![0, 0, 0], ![(1 : ℚ), 0, 0]]
      ![![0, 0, 1], ![0, 0, 1], ![1, 1, 0]] := by
    intro i j
    fin_cases i <;> fin_cases j <;>
      exact ⟨by norm_num, by norm_num [dot, dxij, Fin.sum_univ_three]⟩
  refine ⟨rfl, by decide, hn, ?_, ?_, ?_⟩
  · norm_num [acc_matrix, accEntry]
  · funext k
    fin_cases k <;>
      norm_num [nansumRow, acc_matrix, accEntry, dxij, Fin.sum_univ_three, vzero]
  · funext k
    fin_cases k <;>
      norm_num [nansumRow, acc_matrix, accEntry, dxij, Fin.sum_univ_three, vzero]

/-- C6 amended: the `i = j` self term is excluded exactly — its entry is NaN
and the discard contributes exactly zero — but the same NaN discard also
silently masks a degenerate pair of distinct coincident particles: its entry
is NaN as well, and the row sum runs over the remaining indices only, with no
error raised. -/
theorem C6_nansum_discard_amended (G : ℚ) (mass : Fin n → ℚ)
    (q : Fin n → Vec3) (r : Fin n → Fin n → ℚ) (hnorm : IsNormMatrix q r)
    (i j : Fin n) (hij : i ≠ j) (hq : q i = q j) :
    acc_matrix G mass q r i i = none ∧
      acc_matrix G mass q r i j = none ∧
      ∀ k, nansumRow (acc_matrix G mass q r i) k =
        ∑ j2 ∈ (Finset.univ.erase i).erase j,
          ((acc_matrix G mass q r i j2).getD vzero) k := by
  have hii : r i i = 0 := normMatrix_diag_eq_zero hnorm i
  have hijz : r i j = 0 := normMatrix_eq_zero_of_coincident hnorm hq
  refine ⟨?_, ?_, ?_⟩
  · simp [acc_matrix, accEntry, hii]
  · simp [acc_matrix, accEntry, hijz]
  · intro k
    have hmem : j ∈ Finset.univ.erase i :=
      Finset.mem_erase.mpr ⟨Ne.symm hij, Finset.mem_univ j⟩
    have hsplit1 : ∑ j2, ((acc_matrix G mass q r i j2).getD vzero) k =
        ((acc_matrix G mass q r i i).getD vzero) k +
          ∑ j2 ∈ Finset.univ.erase i,
            ((acc_matrix G mass q r i j2).getD vzero) k :=
      (Finset.add_sum_erase _ _ (Finset.mem_univ i)).symm
    have hsplit2 : ∑ j2 ∈ Finset.univ.erase i,
        ((acc_matrix G mass q r i j2).getD vzero) k =
        ((acc_matrix G mass q r i j).getD vzero) k +
          ∑ j2 ∈ (Finset.univ.erase i).erase j,
            ((acc_matrix G mass q r i j2).getD vzero) k :=
      (Finset.add_sum_erase _ _ hmem).symm
    rw [nansumRow, hsplit1, hsplit2]
    simp [acc_matrix, accEntry, hii, hijz, vzero]

/-- Witness for the amended C6 at a concrete three-particle set with
particles 0 and 1 coincident. -/
theorem C6_nansum_discard_amended_witness :
    IsNormMatrix ![![0, 0, 0], ![0, 0, 0], ![2, 0, 0]]
        ![![0, 0, 2], ![0, 0, 2], ![2, 2, 0]] ∧
      (0 : Fin 3) ≠ 1 ∧
      (![![0, 0, 0], ![0, 0, 0], ![2, 0, 0]] : Fin 3 → Vec3) 0 =
        (![![0, 0, 0], ![0, 0, 0], ![2, 0, 0]] : Fin 3 → Vec3) 1 ∧
      (acc_matrix 1 ![1, 1, 1] ![![0, 0, 0], ![0, 0, 0], ![2, 0, 0]]
          ![![0, 0, 2], ![0, 0, 2], ![2, 2, 0]] 0 0 = none ∧
        acc_matrix 1 ![1, 1, 1] ![![0, 0, 0], ![0, 0, 0], ![2, 0, 0]]
          ![![0, 0, 2], ![0, 0, 2], ![2, 2, 0]] 0 1 = none ∧
        ∀ k, nansumRow (acc_matrix 1 ![1, 1, 1]
            ![![0, 0, 0], ![0, 0, 0], ![2, 0, 0]]
            ![![0, 0, 2], ![0, 0, 2], ![2, 2, 0]] 0) k =
          ∑ j2 ∈ (Finset.univ.erase (0 : Fin 3)).erase 1,
            ((acc_matrix 1 ![1, 1, 1] ![![0, 0, 0], ![0, 0, 0], ![2, 0, 0]]
              ![![0, 0, 2], ![0, 0, 2], ![2, 2, 0]] 0 j2).getD vzero) k) := by
  have hn : IsNormMatrix ![![0, 0, 0], ![0, 0, 0], ![(2 : ℚ), 0, 0]]
      ![![0, 0, 2], ![0, 0, 2], ![2, 2, 0]] := by
    intro i j
    fin_cases i <;> fin_cases j <;>
      exact ⟨by norm_num, by norm_num [dot, dxij, Fin.sum_univ_three]⟩
  exact ⟨hn, by decide, rfl,
    C6_nansum_discard_amended 1 ![1, 1, 1] _ _ hn 0 1 (by decide) rfl⟩

end TipsAndTricks
